import Mathlib

/-!
Shallow embedding of the gimslib-rs frame/buffer/texture subsystem
(`src/frame_data.rs`, `src/vector_constant_buffer.rs`,
`src/running_state/texture_manager.rs`, `src/running_state/egui_renderer.rs`)
and proofs about the specified properties.

Rust `Result`/panics are modelled with `Except`/`Option`; `usize` values are
`Nat` (this code never relies on wraparound of `usize`); `u32` arithmetic is
`Nat` with explicit `% 2^32` where overflow could occur.
-/

namespace Gimslib

/-! ## `src/frame_data.rs` -/

/-- `FrameData<T>`: a ring of per-frame slots with a current index
(`current_frame: Cell<usize>`, `frame_datas: Vec<T>`). -/
structure FrameData (α : Type) where
  currentFrame : Nat
  frameDatas : List α
  deriving Repr, DecidableEq

namespace FrameData

/-- `FrameData::new(init_data)`. -/
def new (initData : List α) : FrameData α :=
  { currentFrame := 0, frameDatas := initData }

/-- `FrameData::from_fn(frame_count, init_fn)`: slots are
`(0..frame_count).map(init_fn)`. -/
def fromFn (frameCount : Nat) (initFn : Nat → α) : FrameData α :=
  { currentFrame := 0, frameDatas := (List.range frameCount).map initFn }

/-- Rust's `Iterator::collect::<Result<Vec<_>, E>>()`: collect the values,
short-circuiting at the first error. -/
def collectExcept : List (Except ε α) → Except ε (List α)
  | [] => .ok []
  | x :: xs => do
    let a ← x
    let rest ← collectExcept xs
    pure (a :: rest)

/-- `FrameData::try_from_fn(frame_count, init_fn)`:
`(0..frame_count).map(init_fn).collect::<Result<_, _>>()?` wrapped into a
`FrameData` with `current_frame = 0`. -/
def tryFromFn (frameCount : Nat) (initFn : Nat → Except ε α) :
    Except ε (FrameData α) :=
  match collectExcept ((List.range frameCount).map initFn) with
  | .error e => .error e
  | .ok l => .ok { currentFrame := 0, frameDatas := l }

/-- `FrameData::increment_frame`:
`current_frame = (current_frame + 1) % frame_datas.len()`.
In Rust `% 0` on `usize` panics, modelled by `none`. -/
def incrementFrame (fd : FrameData α) : Option (FrameData α) :=
  if fd.frameDatas.length = 0 then none
  else some { fd with currentFrame := (fd.currentFrame + 1) % fd.frameDatas.length }

/-- `FrameData::get_current`: `&frame_datas[current_frame]`; an out-of-bounds
index panics in Rust, modelled by `none`. -/
def getCurrent (fd : FrameData α) : Option α :=
  fd.frameDatas[fd.currentFrame]?

/-- `increment_frame` called `k` times in a row. -/
def incrementK (fd : FrameData α) : Nat → Option (FrameData α)
  | 0 => some fd
  | k + 1 => fd.incrementFrame.bind (fun fd' => fd'.incrementK k)

end FrameData

/-! ## `src/vector_constant_buffer.rs` -/

/-- `BufferLocation` from `vector_constant_buffer.rs`. -/
inductive BufferLocation where
  | Cpu
  | GpuUpload
  deriving Repr, DecidableEq

/-- `VectorConstantBuffer<T>`.  `capacity` is the element count the underlying
`ID3D12Resource` was created with (its `Width` divided by `size_of::<T>()`);
`stored` is the element data last written through `Map`/`clone_from_slice`.
The GPU handles (`lib`, the resource itself, `name`) carry no logic and are
omitted. -/
structure VectorConstantBuffer (α : Type) where
  maxSize : Nat
  currentLen : Nat
  location : BufferLocation
  capacity : Nat
  stored : List α
  deriving Repr, DecidableEq

namespace VectorConstantBuffer

/-- `VectorConstantBuffer::new(lib, initial_size, location, name)`:
`create_resource` reserves space for `initial_size` elements;
`max_size = initial_size`, `current_len = 0`. -/
def new (α : Type) (initialSize : Nat) (location : BufferLocation) :
    VectorConstantBuffer α :=
  { maxSize := initialSize
    currentLen := 0
    location := location
    capacity := initialSize
    stored := [] }

/-- `<[T]>::clone_from_slice`: panics (`none`) unless the destination length
equals the source length.  In `upload_deferred_delete` the destination is the
mapped slice `from_raw_parts_mut(pointer, data.len())`. -/
def cloneFromSlice (dstLen : Nat) (src : List α) : Option (List α) :=
  if dstLen = src.length then some src else none

/-- `VectorConstantBuffer::upload_deferred_delete(data)`: when
`max_size < data.len()` a new resource of exactly `data.len()` elements
replaces the old one (the old one is the returned `Some` value); `max_size`
itself is not updated by the source.  Then `current_len = data.len()` and the
data is written through the mapped pointer.  The outer `Option` is panic
(`none`); the inner `Option Unit` is the returned discarded resource. -/
def uploadDeferredDelete (b : VectorConstantBuffer α) (data : List α) :
    Option (VectorConstantBuffer α × Option Unit) :=
  let (b1, deleted) :=
    if b.maxSize < data.length then
      ({ b with capacity := data.length }, some ())
    else
      (b, none)
  let b2 := { b1 with currentLen := data.length }
  match cloneFromSlice data.length data with
  | none => none
  | some written => some ({ b2 with stored := written }, deleted)

/-- `VectorConstantBuffer::upload(data)`: `upload_deferred_delete` with the
discarded resource dropped. -/
def upload (b : VectorConstantBuffer α) (data : List α) :
    Option (VectorConstantBuffer α) :=
  (b.uploadDeferredDelete data).map (·.1)

/-- `VectorConstantBuffer::len()`. -/
def len (b : VectorConstantBuffer α) : Nat :=
  b.currentLen

/-- A sequence of successive `upload` calls. -/
def uploadSeq (b : VectorConstantBuffer α) :
    List (List α) → Option (VectorConstantBuffer α)
  | [] => some b
  | d :: ds => (b.upload d).bind (fun b' => b'.uploadSeq ds)

end VectorConstantBuffer

/-! ## `src/running_state/texture_manager.rs` -/

/-- `egui::TextureId`: managed (font atlas etc.) or user-provided ids. -/
inductive TextureId where
  | Managed (id : Nat)
  | User (id : Nat)
  deriving Repr, DecidableEq

/-- The parts of `egui::epaint::ImageDelta` the texture cache logic reads:
the image's pixel dimensions and the optional update position. -/
structure ImageDelta where
  width : Nat
  height : Nat
  pos : Option (Nat × Nat)
  deriving Repr, DecidableEq

/-- A cache entry `(ID3D12Resource, ID3D12DescriptorHeap)`: the texture
resource is created with the upsert image's dimensions
(`create_texture(lib, width, height)`). -/
structure TextureEntry where
  width : Nat
  height : Nat
  deriving Repr, DecidableEq

/-- `TextureManager`: `textures: HashMap<u64, (ID3D12Resource,
ID3D12DescriptorHeap)>` modelled as a partial map from managed ids; the
command allocator/list/fence carry no cache logic. -/
structure TextureManager where
  textures : Nat → Option TextureEntry

namespace TextureManager

/-- `TextureManager::new`. -/
def new : TextureManager :=
  { textures := fun _ => none }

/-- `TextureManager::get_descriptor_heap(texture)`. -/
def getDescriptorHeap (tm : TextureManager) (texture : Nat) :
    Option TextureEntry :=
  tm.textures texture

/-- `D3D12_TEXTURE_DATA_PITCH_ALIGNMENT`. -/
def D3D12_TEXTURE_DATA_PITCH_ALIGNMENT : Nat := 256

/-- The destination row stride computed in `TextureManager::set`:
`4 * width + D3D12_TEXTURE_DATA_PITCH_ALIGNMENT
 - (4 * width) % D3D12_TEXTURE_DATA_PITCH_ALIGNMENT`
in `u32` arithmetic (each operation reduced mod `2^32`; the subtraction can
never underflow because the subtrahend is at most the prior remainder). -/
def alignedRowBytes (width : Nat) : Nat :=
  let w4 := 4 * width % 2 ^ 32
  (w4 + D3D12_TEXTURE_DATA_PITCH_ALIGNMENT) % 2 ^ 32
    - w4 % D3D12_TEXTURE_DATA_PITCH_ALIGNMENT

/-- Modelled from the spec: the sentence
"destination row stride = `ceil(4*width / 256) * 256`", i.e. the smallest
multiple of 256 that is at least `4*width`.  Kept separate from
`alignedRowBytes` (which is translated from the source) for comparison. -/
def specRowStride (width : Nat) : Nat :=
  (4 * width + 255) / 256 * 256

/-- One iteration of the loop in `TextureManager::set` for a single
`(id, delta)` pair: user ids are filtered out; a managed id either reuses the
cached entry (`or_insert_with` leaves it untouched, the GPU copy updates a
sub-region) or inserts a freshly created texture sized to the delta image. -/
def setStep (tm : TextureManager) (p : TextureId × ImageDelta) :
    TextureManager :=
  match p.1 with
  | .User _ => tm
  | .Managed i =>
    match tm.textures i with
    | some _ => tm
    | none =>
      { textures := fun j =>
          if j = i then some { width := p.2.width, height := p.2.height }
          else tm.textures j }

/-- `TextureManager::set(delta)`: processes the upsert list in order.  The GPU
command recording/fence waits carry no cache state. -/
def set (tm : TextureManager) (delta : List (TextureId × ImageDelta)) :
    TextureManager :=
  delta.foldl setStep tm

/-- One iteration of the loop in `TextureManager::free`: a managed id's entry
is removed from the map; user ids are filtered out. -/
def freeStep (tm : TextureManager) (id : TextureId) : TextureManager :=
  match id with
  | .Managed i =>
    { textures := fun j => if j = i then none else tm.textures j }
  | .User _ => tm

/-- `TextureManager::free(textures)`: removes the entries of the managed ids
in order. -/
def free (tm : TextureManager) (ids : List TextureId) : TextureManager :=
  ids.foldl freeStep tm

end TextureManager

/-! ## `src/running_state/egui_renderer.rs` -/

/-- `egui::TexturesDelta`: pending upserts and pending frees. -/
structure TexturesDelta where
  set : List (TextureId × ImageDelta)
  free : List TextureId
  deriving Repr, DecidableEq

/-- `EguiMesh`: per-slot growable index/vertex buffers plus the managed
texture key.  Index elements are `u32`, vertex elements are opaque tokens;
both are modelled as `Nat`. -/
structure EguiMesh where
  indexBuffer : VectorConstantBuffer Nat
  vertexBuffer : VectorConstantBuffer Nat
  texture : Nat
  deriving Repr, DecidableEq

/-- An `egui::epaint::Primitive` inside a `ClippedPrimitive` (the clip rect is
unused by `update_primitives`). -/
inductive Primitive where
  | Mesh (indices : List Nat) (vertices : List Nat) (textureId : TextureId)
  | PaintCallback
  deriving Repr, DecidableEq

/-- The texture-related state of `EguiRenderer` that `apply_texture_delta`
touches. -/
structure EguiRendererTextures where
  textureManager : TextureManager
  texturesDelta : TexturesDelta

/-- `EguiRenderer::apply_texture_delta(free_list)`:
`texture_manager.free(free_list)`, then `texture_manager.set(&delta.set)`,
then `std::mem::take(&mut self.textures_delta.free)` is returned (leaving the
stored free list empty). -/
def applyTextureDelta (r : EguiRendererTextures) (freeList : List TextureId) :
    EguiRendererTextures × List TextureId :=
  let tm := r.textureManager.free freeList
  let tm := tm.set r.texturesDelta.set
  ({ textureManager := tm
     texturesDelta := { r.texturesDelta with free := [] } },
   r.texturesDelta.free)

namespace EguiRenderer

open VectorConstantBuffer

/-- The body of the `update_primitives` loop for the primitive at `index`.
Paint callbacks `continue`; when the mesh list is too short, fresh buffers are
created and a mesh is pushed unless the texture id is a user texture (which
`continue`s, dropping the just-created buffers); then
`self.meshes[index]` is indexed (panicking — `none` — when out of bounds) and
the mesh data uploaded into its buffers. -/
def updatePrimitivesStep (meshes : List EguiMesh) (index : Nat)
    (p : Primitive) : Option (List EguiMesh) :=
  match p with
  | .PaintCallback => some meshes
  | .Mesh indices vertices textureId =>
    let uploadAt (ms : List EguiMesh) : Option (List EguiMesh) :=
      match ms[index]? with
      | none => none
      | some m =>
        match m.indexBuffer.upload indices, m.vertexBuffer.upload vertices with
        | some ib, some vb =>
          some (ms.set index { m with indexBuffer := ib, vertexBuffer := vb })
        | _, _ => none
    if meshes.length < index + 1 then
      match textureId with
      | .User _ => some meshes
      | .Managed texture =>
        uploadAt (meshes ++
          [{ indexBuffer := VectorConstantBuffer.new Nat indices.length .GpuUpload
             vertexBuffer := VectorConstantBuffer.new Nat vertices.length .GpuUpload
             texture := texture }])
    else
      uploadAt meshes

/-- Loop of `update_primitives` over `primitives.iter().enumerate()`. -/
def updatePrimitivesLoop (meshes : List EguiMesh) (index : Nat) :
    List Primitive → Option (List EguiMesh)
  | [] => some meshes
  | p :: ps =>
    (updatePrimitivesStep meshes index p).bind
      (fun meshes' => updatePrimitivesLoop meshes' (index + 1) ps)

/-- `EguiRenderer::update_primitives(primitives)`: run the loop, then set
`draw_count = primitives.len()`.  Returns the updated mesh list and the new
draw count, or `none` on a panic. -/
def updatePrimitives (meshes : List EguiMesh) (primitives : List Primitive) :
    Option (List EguiMesh × Nat) :=
  (updatePrimitivesLoop meshes 0 primitives).map
    (fun meshes' => (meshes', primitives.length))

/-- The per-slot accesses of `EguiRenderer::draw`: for each
`draw_index in 0..draw_count`, `self.meshes[draw_index]` is indexed and
`texture_manager.get_descriptor_heap(mesh.texture).unwrap()` is called.
Returns `false` when any access panics (index out of bounds or `unwrap` of
`None`). -/
def drawOk (meshes : List EguiMesh) (drawCount : Nat)
    (tm : TextureManager) : Bool :=
  (List.range drawCount).all fun drawIndex =>
    match meshes[drawIndex]? with
    | none => false
    | some mesh => (tm.getDescriptorHeap mesh.texture).isSome

end EguiRenderer

/-! ## Theorems: `FrameData` (C5, C8, C9) -/

namespace FrameData

/-- For a ring with a valid current index, `k` advances land on
`(start + k) % N` and never panic. -/
theorem incrementK_eq {α : Type} (k : Nat) (fd : FrameData α)
    (hN : 0 < fd.frameDatas.length)
    (hlt : fd.currentFrame < fd.frameDatas.length) :
    fd.incrementK k =
      some { fd with
        currentFrame := (fd.currentFrame + k) % fd.frameDatas.length } := by
  induction k generalizing fd with
  | zero =>
    simp [incrementK, Nat.mod_eq_of_lt hlt]
  | succ k ih =>
    have hne : fd.frameDatas.length ≠ 0 := Nat.pos_iff_ne_zero.mp hN
    have hstep : fd.incrementFrame =
        some { fd with
          currentFrame := (fd.currentFrame + 1) % fd.frameDatas.length } := by
      simp [incrementFrame, hne]
    have hlt' : (fd.currentFrame + 1) % fd.frameDatas.length <
        fd.frameDatas.length := Nat.mod_lt _ hN
    have hrec := ih { fd with
      currentFrame := (fd.currentFrame + 1) % fd.frameDatas.length } hN hlt'
    have hmod : ((fd.currentFrame + 1) % fd.frameDatas.length + k) %
        fd.frameDatas.length =
        (fd.currentFrame + (k + 1)) % fd.frameDatas.length := by
      rw [Nat.mod_add_mod, Nat.add_assoc, Nat.add_comm 1 k]
    simp only [incrementK, hstep, Option.some_bind]
    rw [hrec, hmod]

/-- C5: for every frame ring (`FrameData`) of size `N ≥ 1` with current index
`start`, after `k` `increment_frame` calls the current index equals
`(start + k) % N`; in particular after exactly `N` advances `get_current`
returns the original slot. -/
theorem ring_advance {α : Type} (fd : FrameData α) (k : Nat)
    (hN : 0 < fd.frameDatas.length)
    (hlt : fd.currentFrame < fd.frameDatas.length) :
    ∃ fd', fd.incrementK k = some fd' ∧
      fd'.frameDatas = fd.frameDatas ∧
      fd'.currentFrame = (fd.currentFrame + k) % fd.frameDatas.length ∧
      (k = fd.frameDatas.length → fd'.getCurrent = fd.getCurrent) := by
  refine ⟨_, incrementK_eq k fd hN hlt, rfl, rfl, ?_⟩
  intro hk
  subst hk
  simp [getCurrent, Nat.add_mod_right, Nat.mod_eq_of_lt hlt]

/-- Witness for `ring_advance`: a ring of three slots at index 1, advanced
three times. -/
theorem ring_advance_witness :
    ∃ fd', (FrameData.mk 1 [10, 20, 30]).incrementK 3 = some fd' ∧
      fd'.frameDatas = (FrameData.mk 1 [10, 20, 30]).frameDatas ∧
      fd'.currentFrame =
        ((FrameData.mk 1 [10, 20, 30]).currentFrame + 3) %
          (FrameData.mk 1 [10, 20, 30]).frameDatas.length ∧
      (3 = (FrameData.mk 1 [10, 20, 30]).frameDatas.length →
        fd'.getCurrent = (FrameData.mk 1 [10, 20, 30]).getCurrent) :=
  ring_advance (FrameData.mk 1 [10, 20, 30]) 3 (by decide) (by decide)

/-- `collectExcept` starting with an `ok` value. -/
theorem collectExcept_cons_ok {ε α : Type} (a : α) (l : List (Except ε α)) :
    collectExcept (.ok a :: l) =
      (collectExcept l).bind (fun rest => .ok (a :: rest)) :=
  rfl

/-- `collectExcept` starting with an error short-circuits. -/
theorem collectExcept_cons_error {ε α : Type} (e : ε)
    (l : List (Except ε α)) : collectExcept (.error e :: l) = .error e :=
  rfl

/-- `collectExcept` of a list whose prefix is all `ok` and then hits
`error e` returns `error e`. -/
theorem collectExcept_append_error {ε α : Type} (l₁ : List (Except ε α))
    (e : ε) (l₂ : List (Except ε α)) (h : ∀ x ∈ l₁, ∃ a, x = .ok a) :
    collectExcept (l₁ ++ .error e :: l₂) = .error e := by
  induction l₁ with
  | nil => exact collectExcept_cons_error e l₂
  | cons x l₁ ih =>
    obtain ⟨a, ha⟩ := h x (List.mem_cons_self x l₁)
    subst ha
    rw [List.cons_append, collectExcept_cons_ok,
      ih (fun y hy => h y (List.mem_cons_of_mem _ hy))]
    rfl

/-- `collectExcept` of an all-`ok` list collects the values in order. -/
theorem collectExcept_all_ok {ε α : Type} (l : List (Except ε α))
    (h : ∀ x ∈ l, ∃ a, x = .ok a) :
    ∃ out, collectExcept l = .ok out ∧ out.length = l.length ∧
      ∀ (j : Nat) (y : Except ε α), l[j]? = some y →
        ∃ a, y = Except.ok a ∧ out[j]? = some a := by
  induction l with
  | nil => exact ⟨[], rfl, rfl, by simp⟩
  | cons x l ih =>
    obtain ⟨a, ha⟩ := h x (List.mem_cons_self x l)
    subst ha
    obtain ⟨out, hout, hlen, hidx⟩ :=
      ih (fun y hy => h y (List.mem_cons_of_mem _ hy))
    refine ⟨a :: out, ?_, by simp [hlen], ?_⟩
    · rw [collectExcept_cons_ok, hout]
      rfl
    · intro j y hy
      cases j with
      | zero =>
        simp only [List.getElem?_cons_zero, Option.some.injEq] at hy
        exact ⟨a, hy.symm, by simp⟩
      | succ j =>
        simp only [List.getElem?_cons_succ] at hy ⊢
        exact hidx j y hy

/-- C8: for a pool built by `try_from_fn` with `frame_count` slots: a first
failure at slot `i` makes the whole construction fail with that error (no
partial pool); success for all indices yields exactly `frame_count` slots in
initialization order with the current index at 0. -/
theorem tryFromFn_spec {ε α : Type} (n : Nat) (f : Nat → Except ε α) :
    (∀ (i : Nat) (e : ε), i < n → (∀ j, j < i → ∃ a, f j = Except.ok a) →
      f i = Except.error e → tryFromFn n f = Except.error e) ∧
    ((∀ j, j < n → ∃ a, f j = Except.ok a) →
      ∃ fd, tryFromFn n f = Except.ok fd ∧ fd.currentFrame = 0 ∧
        fd.frameDatas.length = n ∧
        ∀ j, j < n → ∃ a, f j = Except.ok a ∧ fd.frameDatas[j]? = some a) := by
  constructor
  · intro i e hi hpre herr
    have hn : n = (i + 1) + (n - (i + 1)) := by omega
    have hsplit : ∃ l₂, (List.range n).map f =
        (List.range i).map f ++ Except.error e :: l₂ := by
      refine ⟨((List.range (n - (i + 1))).map (fun t => i + 1 + t)).map f, ?_⟩
      conv_lhs => rw [hn]
      rw [List.range_add, List.range_succ]
      simp [herr]
    obtain ⟨l₂, hsplit⟩ := hsplit
    have hall : ∀ x ∈ (List.range i).map f, ∃ a, x = Except.ok a := by
      intro x hx
      obtain ⟨j, hj, rfl⟩ := List.mem_map.mp hx
      exact hpre j (List.mem_range.mp hj)
    simp only [tryFromFn]
    rw [hsplit, collectExcept_append_error _ e _ hall]
  · intro hall
    have h1 : ∀ x ∈ (List.range n).map f, ∃ a, x = Except.ok a := by
      intro x hx
      obtain ⟨j, hj, rfl⟩ := List.mem_map.mp hx
      exact hall j (List.mem_range.mp hj)
    obtain ⟨out, hout, hlen, hidx⟩ := collectExcept_all_ok _ h1
    refine ⟨⟨0, out⟩, ?_, rfl, by simpa using hlen, ?_⟩
    · simp only [tryFromFn]
      rw [hout]
    · intro j hj
      have hjf : ((List.range n).map f)[j]? = some (f j) := by
        simp [List.getElem?_map, List.getElem?_range hj]
      exact hidx j (f j) hjf

/-- Witness for `tryFromFn_spec`: a failing initializer at slot 1 and an
all-succeeding initializer for two slots. -/
theorem tryFromFn_spec_witness :
    FrameData.tryFromFn 3
        (fun j => if j = 1 then Except.error 7 else Except.ok j) =
      Except.error 7 ∧
    ∃ fd, FrameData.tryFromFn 2
        (fun j => (Except.ok (j + 10) : Except Nat Nat)) = Except.ok fd ∧
      fd.currentFrame = 0 ∧ fd.frameDatas.length = 2 ∧
      ∀ j, j < 2 → ∃ a,
        (Except.ok (j + 10) : Except Nat Nat) = Except.ok a ∧
        fd.frameDatas[j]? = some a := by
  constructor
  · refine (tryFromFn_spec 3 _).1 1 7 (by omega) ?_ rfl
    intro j hj
    have hj0 : j = 0 := by omega
    subst hj0
    exact ⟨0, rfl⟩
  · exact (tryFromFn_spec 2 _).2 (fun j _ => ⟨j + 10, rfl⟩)

/-- C9: the public constructors accept `frame_count = 0`, on an empty ring
`increment_frame` and `get_current` panic (remainder by zero, index out of
bounds), and on a non-empty ring with a valid current index they never
panic (and `increment_frame` keeps the index valid). -/
theorem empty_ring_panics_nonempty_total :
    (FrameData.new ([] : List Nat)).frameDatas.length = 0 ∧
    (FrameData.fromFn 0 (fun i => i)).frameDatas.length = 0 ∧
    (FrameData.new ([] : List Nat)).incrementFrame = none ∧
    (FrameData.new ([] : List Nat)).getCurrent = none ∧
    (∀ (fd : FrameData Nat), 0 < fd.frameDatas.length →
      ∃ fd', fd.incrementFrame = some fd' ∧
        fd'.frameDatas = fd.frameDatas ∧
        fd'.currentFrame < fd'.frameDatas.length) ∧
    (∀ (fd : FrameData Nat), fd.currentFrame < fd.frameDatas.length →
      ∃ a, fd.getCurrent = some a) := by
  refine ⟨rfl, rfl, rfl, rfl, ?_, ?_⟩
  · intro fd hN
    have hne : fd.frameDatas.length ≠ 0 := by omega
    refine ⟨{ fd with
      currentFrame := (fd.currentFrame + 1) % fd.frameDatas.length },
      ?_, rfl, ?_⟩
    · simp [incrementFrame, hne]
    · exact Nat.mod_lt _ hN
  · intro fd hlt
    exact ⟨fd.frameDatas.get ⟨fd.currentFrame, hlt⟩,
      by simp [getCurrent, List.getElem?_eq_getElem hlt]⟩

/-- Witness for `empty_ring_panics_nonempty_total`: a one-slot ring. -/
theorem empty_ring_panics_nonempty_total_witness :
    ∃ fd', (FrameData.mk 0 [5] : FrameData Nat).incrementFrame = some fd' ∧
      fd'.frameDatas = (FrameData.mk 0 [5]).frameDatas ∧
      fd'.currentFrame < fd'.frameDatas.length :=
  empty_ring_panics_nonempty_total.2.2.2.2.1 ⟨0, [5]⟩ (by decide)

end FrameData

/-! ## Theorems: `VectorConstantBuffer` (C1, C6, C7, C10) -/

namespace VectorConstantBuffer

/-- Closed form of `upload_deferred_delete`: the `clone_from_slice` length
check never fails (both slices have length `data.len()`). -/
theorem uploadDeferredDelete_eq {α : Type} (b : VectorConstantBuffer α)
    (data : List α) :
    b.uploadDeferredDelete data =
      if b.maxSize < data.length then
        some ({ b with
          capacity := data.length
          currentLen := data.length
          stored := data }, some ())
      else
        some ({ b with currentLen := data.length, stored := data }, none) := by
  by_cases h : b.maxSize < data.length <;>
    simp [uploadDeferredDelete, cloneFromSlice, h]

/-- Closed form of `upload`. -/
theorem upload_eq {α : Type} (b : VectorConstantBuffer α) (data : List α) :
    b.upload data =
      if b.maxSize < data.length then
        some { b with
          capacity := data.length
          currentLen := data.length
          stored := data }
      else
        some { b with currentLen := data.length, stored := data } := by
  rw [upload, uploadDeferredDelete_eq]
  by_cases h : b.maxSize < data.length <;> simp [h]

/-- C6: for every buffer and every slice `data`, `upload(data)` succeeds
without a size-mismatch panic and the reported `len()` afterwards equals
`data.len()`, for any data length. -/
theorem upload_no_panic_len {α : Type} (b : VectorConstantBuffer α)
    (data : List α) :
    ∃ b', b.upload data = some b' ∧ b'.len = data.length := by
  rw [upload_eq]
  by_cases h : b.maxSize < data.length <;> simp [h, len]

/-- C7: with `initial_size = k`, uploading exactly `k` elements performs no
reallocation (no resource is discarded, the capacity stays `k`), while
uploading `k + 1` elements into the freshly constructed buffer discards
exactly one old resource and reallocates to capacity `k + 1`. -/
theorem exact_fit_roundtrip {α : Type} (loc : BufferLocation) (k : Nat)
    (dataK dataK1 : List α) (hK : dataK.length = k)
    (hK1 : dataK1.length = k + 1) :
    (∃ b', (VectorConstantBuffer.new α k loc).uploadDeferredDelete dataK =
      some (b', none) ∧ b'.capacity = k) ∧
    (∃ b', (VectorConstantBuffer.new α k loc).uploadDeferredDelete dataK1 =
      some (b', some ()) ∧ b'.capacity = k + 1) := by
  constructor
  · have hcond : ¬ (VectorConstantBuffer.new α k loc).maxSize <
        dataK.length := by
      simp [new, hK]
    rw [uploadDeferredDelete_eq, if_neg hcond]
    exact ⟨_, rfl, rfl⟩
  · have hcond : (VectorConstantBuffer.new α k loc).maxSize <
        dataK1.length := by
      simp [new, hK1]
    rw [uploadDeferredDelete_eq, if_pos hcond]
    exact ⟨_, rfl, hK1⟩

/-- Witness for `exact_fit_roundtrip`: `k = 2`. -/
theorem exact_fit_roundtrip_witness :
    (∃ b', (VectorConstantBuffer.new Nat 2 .Cpu).uploadDeferredDelete [5, 6] =
      some (b', none) ∧ b'.capacity = 2) ∧
    (∃ b', (VectorConstantBuffer.new Nat 2 .Cpu).uploadDeferredDelete
        [7, 8, 9] = some (b', some ()) ∧ b'.capacity = 2 + 1) :=
  exact_fit_roundtrip .Cpu 2 [5, 6] [7, 8, 9] rfl rfl

/-- C1 (violated by the code): the allocated capacity is not monotonically
non-decreasing across successive uploads.  Starting from `initial_size = 0`,
uploading two elements grows the resource to capacity 2, but a following
one-element upload reallocates down to capacity 1, because
`upload_deferred_delete` never updates `max_size` after growing —
contradicting the struct's own doc comment ("It will never shrink
automatically, so smaller future writes happen immediately without a new
allocation"). -/
theorem capacity_shrinks :
    ((VectorConstantBuffer.new Nat 0 .Cpu).uploadSeq [[1, 2]]).map capacity =
      some 2 ∧
    ((VectorConstantBuffer.new Nat 0 .Cpu).uploadSeq
      [[1, 2], [1]]).map capacity = some 1 := by
  constructor <;> rfl

/-- The state invariant maintained by every upload from a fresh buffer:
`max_size` stays at the construction value and never exceeds the true
allocated capacity, and the stored length fits the allocation. -/
theorem uploadSeq_invariant {α : Type} (initialSize : Nat)
    (datas : List (List α)) (b : VectorConstantBuffer α)
    (hmax : b.maxSize = initialSize) (hcap : initialSize ≤ b.capacity)
    (hlen : b.currentLen ≤ b.capacity) :
    ∃ s, b.uploadSeq datas = some s ∧ s.maxSize = initialSize ∧
      initialSize ≤ s.capacity ∧ s.currentLen ≤ s.capacity := by
  induction datas generalizing b with
  | nil => exact ⟨b, rfl, hmax, hcap, hlen⟩
  | cons d ds ih =>
    simp only [uploadSeq, upload_eq]
    by_cases h : b.maxSize < d.length
    · simp only [h, if_true, if_pos, Option.some_bind]
      exact ih _ hmax (show initialSize ≤ d.length by omega)
        (Nat.le_refl d.length)
    · simp only [h, if_false, if_neg, Option.some_bind, not_false_iff]
      exact ih _ hmax hcap (show d.length ≤ b.capacity by omega)

/-- C10: for every fresh buffer and every sequence of uploads, the mapped
write always fits in the allocated resource: after every upload the allocated
element capacity is at least `current_len`, and at least the construction
`initial_size`; moreover a reallocation sizes the new resource to exactly
`data.len()`. -/
theorem write_always_fits {α : Type} (loc : BufferLocation)
    (initialSize : Nat) (datas : List (List α)) :
    (∃ s, (VectorConstantBuffer.new α initialSize loc).uploadSeq datas =
      some s ∧ s.currentLen ≤ s.capacity ∧ initialSize ≤ s.capacity) ∧
    (∀ (b : VectorConstantBuffer α) (data : List α),
      b.maxSize < data.length →
      ∃ p, b.uploadDeferredDelete data = some p ∧
        p.1.capacity = data.length ∧ p.2 = some ()) := by
  constructor
  · obtain ⟨s, h1, _, h3, h4⟩ := uploadSeq_invariant initialSize datas
      (VectorConstantBuffer.new α initialSize loc) rfl (Nat.le_refl _)
      (Nat.zero_le _)
    exact ⟨s, h1, h4, h3⟩
  · intro b data h
    rw [uploadDeferredDelete_eq]
    simp [h]

/-- Witness for `write_always_fits`: a growing and a shrinking upload from a
one-slot buffer, and a forced reallocation. -/
theorem write_always_fits_witness :
    (∃ s, (VectorConstantBuffer.new Nat 1 .Cpu).uploadSeq [[3, 4], [9]] =
      some s ∧ s.currentLen ≤ s.capacity ∧ 1 ≤ s.capacity) ∧
    (∃ p, (VectorConstantBuffer.new Nat 0 .Cpu).uploadDeferredDelete [7] =
      some p ∧ p.1.capacity = [7].length ∧ p.2 = some ()) :=
  ⟨(write_always_fits .Cpu 1 [[3, 4], [9]]).1,
   (write_always_fits .Cpu 0 ([] : List (List Nat))).2
     (VectorConstantBuffer.new Nat 0 .Cpu) [7] (by decide)⟩

end VectorConstantBuffer

/-! ## Theorems: texture row stride (C3) -/

namespace TextureManager

/-- C3 counterexample: at width 64 the code's destination row stride is 512,
not `ceil(4*64 / 256) * 256 = 256` — when `4*width` is already a multiple of
256 the code adds a full extra alignment block. -/
theorem alignedRowBytes_ne_spec_at_64 :
    ¬ alignedRowBytes 64 = specRowStride 64 := by decide

/-- C3 amended: for widths without `u32` overflow, the destination row stride
is the smallest multiple of 256 that is strictly greater than `4*width`
(equal to `ceil(4*width / 256) * 256` except when `4*width` is itself a
multiple of 256, where one extra 256-byte block is added). -/
theorem alignedRowBytes_next_multiple (width : Nat)
    (h : 4 * width + 256 < 2 ^ 32) :
    alignedRowBytes width = (4 * width / 256 + 1) * 256 ∧
    4 * width < alignedRowBytes width ∧
    alignedRowBytes width % 256 = 0 ∧
    ∀ m, m % 256 = 0 → 4 * width < m → alignedRowBytes width ≤ m := by
  have hp : (2 : Nat) ^ 32 = 4294967296 := by norm_num
  rw [hp] at h
  simp only [alignedRowBytes, D3D12_TEXTURE_DATA_PITCH_ALIGNMENT, hp]
  refine ⟨by omega, by omega, by omega, fun m hm hlt => by omega⟩

/-- Witness for `alignedRowBytes_next_multiple`: width 100 gives stride 512. -/
theorem alignedRowBytes_next_multiple_witness :
    alignedRowBytes 100 = (4 * 100 / 256 + 1) * 256 ∧
    4 * 100 < alignedRowBytes 100 ∧
    alignedRowBytes 100 % 256 = 0 ∧
    ∀ m, m % 256 = 0 → 4 * 100 < m → alignedRowBytes 100 ≤ m :=
  alignedRowBytes_next_multiple 100 (by norm_num)

/-! ## Theorems: texture cache free/set ordering (C4) -/

/-- A missing entry stays missing across `free`. -/
theorem free_preserves_none (tm : TextureManager) (ids : List TextureId)
    (i : Nat) (h : tm.textures i = none) :
    (tm.free ids).textures i = none := by
  induction ids generalizing tm with
  | nil => exact h
  | cons id ids ih =>
    rw [free, List.foldl_cons]
    refine ih (tm.freeStep id) ?_
    cases id with
    | Managed j =>
      simp only [freeStep]
      by_cases hij : i = j <;> simp [hij, h]
    | User j => exact h

/-- After `free(ids)` a managed id in `ids` has no entry. -/
theorem free_textures_none (tm : TextureManager) (ids : List TextureId)
    (i : Nat) (h : TextureId.Managed i ∈ ids) :
    (tm.free ids).textures i = none := by
  induction ids generalizing tm with
  | nil => cases h
  | cons id ids ih =>
    rw [free, List.foldl_cons]
    rcases List.mem_cons.mp h with heq | hmem
    · subst heq
      exact free_preserves_none _ ids i (by simp [freeStep])
    · exact ih (tm.freeStep id) hmem

/-- `setStep` never removes an entry. -/
theorem setStep_preserves_some (tm : TextureManager)
    (p : TextureId × ImageDelta) (i : Nat) (e : TextureEntry)
    (h : tm.textures i = some e) : (tm.setStep p).textures i = some e := by
  obtain ⟨id, d⟩ := p
  cases id with
  | Managed j =>
    simp only [setStep]
    cases hj : tm.textures j with
    | some _ => exact h
    | none =>
      have hij : i ≠ j := fun hij => by rw [hij, hj] at h; cases h
      simp [hij, h]
  | User j => exact h

/-- `set` never removes an entry. -/
theorem set_preserves_some (tm : TextureManager)
    (l : List (TextureId × ImageDelta)) (i : Nat) (e : TextureEntry)
    (h : tm.textures i = some e) : (tm.set l).textures i = some e := by
  induction l generalizing tm with
  | nil => exact h
  | cons p l ih =>
    rw [set, List.foldl_cons]
    exact ih (tm.setStep p) (setStep_preserves_some tm p i e h)

/-- An upserted managed id has an entry after `set`, regardless of the
initial state. -/
theorem set_mem_some (tm : TextureManager)
    (l : List (TextureId × ImageDelta)) (i : Nat) (d : ImageDelta)
    (h : (TextureId.Managed i, d) ∈ l) :
    ∃ e, (tm.set l).textures i = some e := by
  induction l generalizing tm with
  | nil => cases h
  | cons p l ih =>
    rw [set, List.foldl_cons]
    rcases List.mem_cons.mp h with heq | hmem
    · have hstep : ∃ e, (tm.setStep p).textures i = some e := by
        subst heq
        simp only [setStep]
        cases hi : tm.textures i with
        | some e => exact ⟨e, hi⟩
        | none => exact ⟨{ width := d.width, height := d.height }, by simp⟩
      obtain ⟨e, he⟩ := hstep
      exact ⟨e, set_preserves_some _ l i e he⟩
    · exact ih (tm.setStep p) hmem

/-- Ids without any upsert entry are untouched by `set`. -/
theorem set_no_entry (tm : TextureManager)
    (l : List (TextureId × ImageDelta)) (i : Nat)
    (h : ∀ d, (TextureId.Managed i, d) ∉ l) :
    (tm.set l).textures i = tm.textures i := by
  induction l generalizing tm with
  | nil => rfl
  | cons p l ih =>
    rw [set, List.foldl_cons]
    have hstep : (tm.setStep p).textures i = tm.textures i := by
      obtain ⟨id, d⟩ := p
      cases id with
      | Managed j =>
        have hij : j ≠ i := by
          intro hji
          exact h d (by simp [hji])
        simp only [setStep]
        cases hj : tm.textures j with
        | some _ => rfl
        | none => simp [Ne.symm hij]
      | User j => rfl
    show ((tm.setStep p).set l).textures i = tm.textures i
    rw [ih (tm.setStep p) (fun d hd => h d (List.mem_cons_of_mem p hd)),
      hstep]

end TextureManager

/-- C4: `apply_texture_delta` applies the previous frame's `free_list` before
the pending upserts — a managed id freed and re-upserted in the same call is
recreated (present afterwards), an id freed without an upsert is gone — and
the returned deferred list exactly equals the pending delta's `free` set as
it was before the upserts. -/
theorem applyTextureDelta_spec (r : EguiRendererTextures)
    (freeList : List TextureId) :
    (applyTextureDelta r freeList).2 = r.texturesDelta.free ∧
    (∀ i : Nat, TextureId.Managed i ∈ freeList →
      ((∀ d, (TextureId.Managed i, d) ∉ r.texturesDelta.set) →
        (applyTextureDelta r freeList).1.textureManager.textures i = none) ∧
      (∀ d, (TextureId.Managed i, d) ∈ r.texturesDelta.set →
        ∃ e, (applyTextureDelta r freeList).1.textureManager.textures i =
          some e)) := by
  refine ⟨rfl, fun i hfree => ⟨?_, ?_⟩⟩
  · intro hnone
    show ((r.textureManager.free freeList).set
      r.texturesDelta.set).textures i = none
    rw [TextureManager.set_no_entry _ _ _ hnone]
    exact TextureManager.free_textures_none _ _ _ hfree
  · intro d hd
    exact TextureManager.set_mem_some _ _ _ d hd

/-- Witness for `applyTextureDelta_spec`: id 3 freed and re-upserted in the
same application; the returned deferred list is the pending `free` set. -/
theorem applyTextureDelta_spec_witness :
    (applyTextureDelta
      { textureManager :=
          { textures := fun j =>
              if j = 3 then some { width := 1, height := 1 } else none }
        texturesDelta :=
          { set := [(TextureId.Managed 3,
              { width := 8, height := 8, pos := none })]
            free := [TextureId.Managed 9] } }
      [TextureId.Managed 3]).2 = [TextureId.Managed 9] ∧
    ∃ e, (applyTextureDelta
      { textureManager :=
          { textures := fun j =>
              if j = 3 then some { width := 1, height := 1 } else none }
        texturesDelta :=
          { set := [(TextureId.Managed 3,
              { width := 8, height := 8, pos := none })]
            free := [TextureId.Managed 9] } }
      [TextureId.Managed 3]).1.textureManager.textures 3 = some e := by
  refine ⟨(applyTextureDelta_spec _ _).1, ?_⟩
  exact ((applyTextureDelta_spec _ [TextureId.Managed 3]).2 3
    (by decide)).2 { width := 8, height := 8, pos := none } (by decide)

/-! ## Theorems: skipped UI primitives (C2) -/

/-- C2 (violated by the code): `update_primitives` sets
`draw_count = primitives.len()` even when an unsupported primitive was
skipped without creating a mesh slot, so the subsequent `draw` over
`0..draw_count` indexes `meshes` out of bounds and panics; with a skipped
item followed by a supported mesh, `update_primitives` itself panics at
`self.meshes[index]`. -/
theorem unsupported_primitive_panics :
    EguiRenderer.updatePrimitives [] [Primitive.PaintCallback] =
      some ([], 1) ∧
    EguiRenderer.drawOk [] 1 TextureManager.new = false ∧
    EguiRenderer.updatePrimitives []
      [Primitive.PaintCallback,
       Primitive.Mesh [0] [0] (TextureId.Managed 0)] = none :=
  ⟨rfl, rfl, rfl⟩

end Gimslib

